import Mathlib

/-!
Verification of the subtitle-mask compositing core of HX-NekoMimi
(`app/src/main/cpp/ass_jni.c`): the Porter-Duff source-over blending loop
`blend_ass_image`, the bounding-box reducer `compute_bounding_box`, and the
cropped extraction loop of `nativeRenderFrame`.

The embedding is shallow: C `int` values become `Int`; `uint8_t` bytes become
`Fin 256` (for the mask buffer) or `Nat` values reduced with `% 256` where the
C code performs a narrowing cast; `uint32_t` pixel words become `Nat`, with the
bit operations `(p >> k) & 0xFF` rendered as `p / 2 ^ k % 256` and the packing
`(a << 24) | (r << 16) | (g << 8) | b` rendered as
`a * 2 ^ 24 + r * 2 ^ 16 + g * 2 ^ 8 + b` (the four fields are bytes, so the
disjoint bit-or coincides with addition).  The pixel buffer is a map from
linear index (`dst_y * canvas_w + dst_x`) to the stored 32-bit word.
-/

/-- The `uint32_t *pixels` buffer: linear pixel index to stored `0xAARRGGBB`
word. -/
abbrev Canvas := Nat → Nat

/-- The zero-initialized (fully transparent) canvas produced by `calloc`. -/
def zeroCanvas : Canvas := fun _ => 0

/-- Store `v` at `pixels[i]`. -/
def setPix (c : Canvas) (i : Nat) (v : Nat) : Canvas :=
  fun j => if j = i then v else c j

/-- One node of the `ASS_Image` list: an 8-bit alpha mask `bitmap` read with
row pitch `stride`, a packed `0xRRGGBBAA` tint `color` (AA inverted), and a
placement `(dst_x, dst_y)` of a `w × h` rectangle.  The `next` pointer is
represented by putting nodes in a `List`. -/
structure AssImage where
  color : Nat
  w : Int
  h : Int
  stride : Int
  dst_x : Int
  dst_y : Int
  bitmap : Int → Fin 256

/-- `out_left/out_top/out_right/out_bottom` of `compute_bounding_box`. -/
structure Rect where
  left : Int
  top : Int
  right : Int
  bottom : Int
deriving DecidableEq

/-- Line 106 of `ass_jni.c`: `final_alpha + dst_a * inv_alpha / 255` with
`inv_alpha = 255 - final_alpha` (before the `uint8_t` narrowing cast). -/
def srcOverAlpha (src_alpha dst_a : Nat) : Nat :=
  src_alpha + dst_a * (255 - src_alpha) / 255

/-- Body of the inner `for (x ...)` loop of `blend_ass_image`
(lines 85–121): clip the column, read the coverage byte, skip zero effective
alpha, and source-over blend one pixel.  The `(uint8_t)` casts are the
`% 256` reductions. -/
def blendCol (canvas_w : Int) (r g b a : Nat) (img : AssImage) (y : Nat)
    (pix : Canvas) (x : Nat) : Canvas :=
  let dst_x := img.dst_x + (x : Int)
  if dst_x < 0 ∨ canvas_w ≤ dst_x then pix
  else
    let bitmap_alpha : Nat := (img.bitmap ((y : Int) * img.stride + (x : Int))).val
    if bitmap_alpha = 0 then pix
    else
      let final_alpha := bitmap_alpha * (255 - a) / 255
      if final_alpha = 0 then pix
      else
        let idx := ((img.dst_y + (y : Int)) * canvas_w + dst_x).toNat
        let dst_pixel := pix idx
        let dst_a := dst_pixel / 2 ^ 24 % 256
        let dst_r := dst_pixel / 2 ^ 16 % 256
        let dst_g := dst_pixel / 2 ^ 8 % 256
        let dst_b := dst_pixel % 256
        let inv_alpha := 255 - final_alpha
        let out_a := srcOverAlpha final_alpha dst_a % 256
        let out_r := if out_a = 0 then 0
          else (r * final_alpha + dst_r * dst_a * inv_alpha / 255) / out_a % 256
        let out_g := if out_a = 0 then 0
          else (g * final_alpha + dst_g * dst_a * inv_alpha / 255) / out_a % 256
        let out_b := if out_a = 0 then 0
          else (b * final_alpha + dst_b * dst_a * inv_alpha / 255) / out_a % 256
        setPix pix idx (out_a * 2 ^ 24 + out_r * 2 ^ 16 + out_g * 2 ^ 8 + out_b)

/-- Body of the `for (y ...)` loop of `blend_ass_image` (lines 78–122):
clip the row, then run the column loop over `[0, w)`. -/
def blendRow (canvas_w canvas_h : Int) (r g b a : Nat) (img : AssImage)
    (pix : Canvas) (y : Nat) : Canvas :=
  let dst_y := img.dst_y + (y : Int)
  if dst_y < 0 ∨ canvas_h ≤ dst_y then pix
  else (List.range img.w.toNat).foldl (blendCol canvas_w r g b a img y) pix

/-- Per-image body of `blend_ass_image` (lines 70–122): decode the tint
channels from `color` and run the row loop over `[0, h)`. -/
def blendImage (canvas_w canvas_h : Int) (pix : Canvas) (img : AssImage) : Canvas :=
  let r := img.color / 2 ^ 24 % 256
  let g := img.color / 2 ^ 16 % 256
  let b := img.color / 2 ^ 8 % 256
  let a := img.color % 256
  (List.range img.h.toNat).foldl (blendRow canvas_w canvas_h r g b a img) pix

/-- `blend_ass_image` (lines 68–124): composite every image of the list, in
list order, onto the pixel buffer. -/
def blend_ass_image (pixels : Canvas) (canvas_w canvas_h : Int)
    (img_list : List AssImage) : Canvas :=
  img_list.foldl (blendImage canvas_w canvas_h) pixels

/-- Loop body of `compute_bounding_box` (lines 137–148): skip degenerate
images, fold the raw placed extent into the running rectangle. -/
def bboxStep (st : Rect) (img : AssImage) : Rect :=
  if img.w ≤ 0 ∨ img.h ≤ 0 then st
  else
    let x1 := img.dst_x
    let y1 := img.dst_y
    let x2 := img.dst_x + img.w
    let y2 := img.dst_y + img.h
    { left   := if x1 < st.left then x1 else st.left
      top    := if y1 < st.top then y1 else st.top
      right  := if x2 > st.right then x2 else st.right
      bottom := if y2 > st.bottom then y2 else st.bottom }

/-- `compute_bounding_box` (lines 129–155): fold raw extents of
non-degenerate images, then clamp to the canvas. -/
def compute_bounding_box (img_list : List AssImage) (canvas_w canvas_h : Int) :
    Rect :=
  let st := img_list.foldl bboxStep
    { left := canvas_w, top := canvas_h, right := 0, bottom := 0 }
  { left   := if st.left < 0 then 0 else st.left
    top    := if st.top < 0 then 0 else st.top
    right  := if st.right > canvas_w then canvas_w else st.right
    bottom := if st.bottom > canvas_h then canvas_h else st.bottom }

/-- The bounding-box reducer exactly as the spec words it (§4.1): start from
`(canvas_w, canvas_h, 0, 0)`, fold each non-degenerate fragment's raw placed
extent via component-wise `min`/`max`, then clamp `left`/`top` to `≥ 0` and
`right`/`bottom` to the canvas dimensions.  Written from the spec for
comparison with `compute_bounding_box`. -/
def bboxSpecStep (st : Rect) (img : AssImage) : Rect :=
  if 0 < img.w ∧ 0 < img.h then
    { left   := min st.left img.dst_x
      top    := min st.top img.dst_y
      right  := max st.right (img.dst_x + img.w)
      bottom := max st.bottom (img.dst_y + img.h) }
  else st

/-- The clamped min/max fold, word for word from spec §4.1, to be compared
with `compute_bounding_box`. -/
def boundingBoxSpec (fragments : List AssImage) (canvas_w canvas_h : Int) :
    Rect :=
  let st := fragments.foldl bboxSpecStep
    { left := canvas_w, top := canvas_h, right := 0, bottom := 0 }
  { left   := max st.left 0
    top    := max st.top 0
    right  := min st.right canvas_w
    bottom := min st.bottom canvas_h }

/-- The per-pixel update as the spec describes it (§4.2 steps 5–11), with the
color channels additionally reduced `% 256` (the `uint8_t` narrowing the code
performs on them).  Inputs: decoded tint bytes `r g b`, the coverage byte, the
inverted tint alpha, and the destination pixel word. -/
def specPixelUpdate (r g b coverage color_alpha_inv dst_pixel : Nat) : Nat :=
  let src_alpha := coverage * (255 - color_alpha_inv) / 255
  let inv := 255 - src_alpha
  let dst_a := dst_pixel / 2 ^ 24 % 256
  let dst_r := dst_pixel / 2 ^ 16 % 256
  let dst_g := dst_pixel / 2 ^ 8 % 256
  let dst_b := dst_pixel % 256
  let out_a := src_alpha + dst_a * inv / 255
  let out_r := if out_a = 0 then 0
    else (r * src_alpha + dst_r * dst_a * inv / 255) / out_a % 256
  let out_g := if out_a = 0 then 0
    else (g * src_alpha + dst_g * dst_a * inv / 255) / out_a % 256
  let out_b := if out_a = 0 then 0
    else (b * src_alpha + dst_b * dst_a * inv / 255) / out_a % 256
  out_a * 2 ^ 24 + out_r * 2 ^ 16 + out_g * 2 ^ 8 + out_b

/-- The row-copy loop of `nativeRenderFrame` (lines 377–382), expressed
index-wise: the cropped buffer's pixel `i` (crop width `right - left`) is the
canvas pixel at `(top + i / crop_w) * canvas_w + left + i % crop_w`. -/
def extractRegion (full : Canvas) (canvas_w left top right bottom : Int) :
    Canvas :=
  fun i =>
    let crop_w := (right - left).toNat
    let y := i / crop_w
    let x := i % crop_w
    if y < (bottom - top).toNat then
      full (((top + (y : Int)) * canvas_w + left + (x : Int)).toNat)
    else 0

/-- Modelled from the spec: the re-placement step of the round-trip crop
property (§8) — placing a cropped buffer back at `(left, top)` on a freshly
zeroed canvas of the original dimensions.  No placement routine exists in the
source; this is the test construct the spec describes. -/
def placeRegion (crop : Canvas) (canvas_w left top right bottom : Int) :
    Canvas :=
  fun i =>
    let cw := canvas_w.toNat
    let y : Int := (i / cw : Nat)
    let x : Int := (i % cw : Nat)
    if left ≤ x ∧ x < right ∧ top ≤ y ∧ y < bottom then
      crop ((y - top) * (right - left) + (x - left)).toNat
    else 0

/-- A 1×1 fully-covered fragment: nearly transparent (inverted tint alpha
254) pure red.  Composited first in the `C1` counterexample run. -/
def cexImgA : AssImage :=
  { color := 255 * 2 ^ 24 + 254, w := 1, h := 1, stride := 1,
    dst_x := 0, dst_y := 0, bitmap := fun _ => 255 }

/-- A 1×1 fully-covered fragment: nearly transparent (inverted tint alpha
254) dark red.  Composited second in the `C1` counterexample run. -/
def cexImgB : AssImage :=
  { color := 100 * 2 ^ 24 + 254, w := 1, h := 1, stride := 1,
    dst_x := 0, dst_y := 0, bitmap := fun _ => 255 }

/-- A 1×1 semi-transparent (inverted tint alpha 128) red fragment. -/
def imgRed : AssImage :=
  { color := 200 * 2 ^ 24 + 128, w := 1, h := 1, stride := 1,
    dst_x := 0, dst_y := 0, bitmap := fun _ => 255 }

/-- A 1×1 semi-transparent (inverted tint alpha 128) blue fragment
overlapping `imgRed`. -/
def imgBlue : AssImage :=
  { color := 200 * 2 ^ 8 + 128, w := 1, h := 1, stride := 1,
    dst_x := 0, dst_y := 0, bitmap := fun _ => 255 }

/-- A 1×1 fragment whose bitmap is identically zero (positive dimensions). -/
def zeroFrag : AssImage :=
  { color := 255 * 2 ^ 24, w := 1, h := 1, stride := 1,
    dst_x := 0, dst_y := 0, bitmap := fun _ => 0 }

/-- A concrete non-trivial canvas used to witness the round-trip crop. -/
def stripedCanvas : Canvas := fun i => 7 * i + 3

/- ====================================================================
   Helper lemmas
   ==================================================================== -/

theorem foldl_apply_eq {α : Type} (f : Canvas → α → Canvas) (i : Nat)
    (h : ∀ c x, f c x i = c i) :
    ∀ (l : List α) (c : Canvas), (l.foldl f c) i = c i := by
  intro l
  induction l with
  | nil => intro c; rfl
  | cons x xs ih => intro c; rw [List.foldl_cons, ih, h]

theorem foldl_apply_le {α : Type} (f : Canvas → α → Canvas) (g : Canvas → Nat)
    (h : ∀ c x, g c ≤ g (f c x)) :
    ∀ (l : List α) (c : Canvas), g c ≤ g (l.foldl f c) := by
  intro l
  induction l with
  | nil => intro c; exact Nat.le_refl _
  | cons x xs ih => intro c; exact Nat.le_trans (h c x) (ih (f c x))

theorem foldl_fix {α β : Type} (f : β → α → β) (l : List α) (b : β)
    (h : ∀ b' x, x ∈ l → f b' x = b') : l.foldl f b = b := by
  induction l generalizing b with
  | nil => rfl
  | cons x xs ih =>
      rw [List.foldl_cons, h b x (List.mem_cons_self x xs)]
      exact ih b fun b' x' hx' => h b' x' (List.mem_cons_of_mem x hx')

/-- `coverage * (255 - a) / 255` stays a byte when `coverage` does. -/
theorem final_alpha_le (cov a : Nat) (hcov : cov ≤ 255) :
    cov * (255 - a) / 255 ≤ 255 := by
  have h1 : cov * (255 - a) ≤ 255 * 255 :=
    Nat.mul_le_mul hcov (by omega)
  have h2 : cov * (255 - a) / 255 ≤ 255 * 255 / 255 :=
    Nat.div_le_div_right h1
  omega

/-- Source-over output alpha stays a byte for byte inputs. -/
theorem srcOverAlpha_le {sa da : Nat} (hsa : sa ≤ 255) (hda : da ≤ 255) :
    srcOverAlpha sa da ≤ 255 := by
  unfold srcOverAlpha
  have h1 : da * (255 - sa) ≤ 255 * (255 - sa) :=
    Nat.mul_le_mul_right _ hda
  have h2 : da * (255 - sa) / 255 ≤ 255 * (255 - sa) / 255 :=
    Nat.div_le_div_right h1
  have h3 : 255 * (255 - sa) / 255 = 255 - sa :=
    Nat.mul_div_cancel_left _ (by omega)
  omega

/-- Source-over output alpha never drops below the destination alpha. -/
theorem le_srcOverAlpha (sa da : Nat) (hda : da ≤ 255) :
    da ≤ srcOverAlpha sa da := by
  unfold srcOverAlpha
  rcases Nat.le_total da sa with h | h
  · omega
  · have h2 : sa ≤ 255 := Nat.le_trans h hda
    have key : (da - sa) * 255 ≤ da * (255 - sa) := by
      zify [h, h2]
      have hda' : (da : Int) ≤ 255 := by exact_mod_cast hda
      have hsa0 : (0 : Int) ≤ (sa : Int) := Int.natCast_nonneg sa
      nlinarith [mul_nonneg hsa0 (by linarith : (0 : Int) ≤ 255 - (da : Int))]
    have h3 : da - sa ≤ da * (255 - sa) / 255 :=
      (Nat.le_div_iff_mul_le (by omega)).mpr key
    omega

/-- The column body is the identity when the image's bitmap is all zero. -/
theorem blendCol_zero {canvas_w : Int} {r g b a : Nat} {img : AssImage}
    {y : Nat} (h : ∀ off, img.bitmap off = 0) (pix : Canvas) (x : Nat) :
    blendCol canvas_w r g b a img y pix x = pix := by
  simp only [blendCol]
  split_ifs with h1 h2 <;>
    first
      | rfl
      | exact absurd (by rw [h]; rfl) h2

/-- The row body is the identity when the image's bitmap is all zero. -/
theorem blendRow_zero {canvas_w canvas_h : Int} {r g b a : Nat}
    {img : AssImage} (h : ∀ off, img.bitmap off = 0) (pix : Canvas) (y : Nat) :
    blendRow canvas_w canvas_h r g b a img pix y = pix := by
  simp only [blendRow]
  split_ifs with h1
  · rfl
  · exact foldl_fix _ _ _ fun pix' x _ => blendCol_zero h pix' x

/-- Blending an image whose bitmap is all zero leaves the canvas unchanged. -/
theorem blendImage_zero {canvas_w canvas_h : Int} {img : AssImage}
    (h : ∀ off, img.bitmap off = 0) (pix : Canvas) :
    blendImage canvas_w canvas_h pix img = pix := by
  unfold blendImage
  exact foldl_fix _ _ _ fun pix' y _ => blendRow_zero h pix' y

/-- A clipped column write never touches an index at or past the end of the
`canvas_w * canvas_h` pixel buffer. -/
theorem blendCol_out {canvas_w canvas_h : Int} {r g b a : Nat}
    {img : AssImage} {y : Nat} (hy0 : 0 ≤ img.dst_y + (y : Int))
    (hy1 : img.dst_y + (y : Int) < canvas_h) {i : Nat}
    (hi : (canvas_w * canvas_h).toNat ≤ i) :
    ∀ (c : Canvas) (x : Nat), blendCol canvas_w r g b a img y c x i = c i := by
  intro c x
  simp only [blendCol]
  split_ifs with h1 h2 h3 h4 <;> try rfl
  all_goals {
    have h1a : ¬(img.dst_x + (x : Int) < 0) := fun hc => h1 (Or.inl hc)
    have h1b : ¬(canvas_w ≤ img.dst_x + (x : Int)) := fun hc => h1 (Or.inr hc)
    have hcw : (0 : Int) ≤ canvas_w := by omega
    have h5 : (img.dst_y + (y : Int) + 1) * canvas_w ≤ canvas_h * canvas_w :=
      mul_le_mul_of_nonneg_right (by omega) hcw
    have e1 : (img.dst_y + (y : Int) + 1) * canvas_w
        = (img.dst_y + (y : Int)) * canvas_w + canvas_w := by ring
    have e2 : canvas_h * canvas_w = canvas_w * canvas_h := by ring
    have h6 : (0 : Int) ≤ (img.dst_y + (y : Int)) * canvas_w :=
      mul_nonneg hy0 hcw
    have hlt : ((img.dst_y + (y : Int)) * canvas_w
        + (img.dst_x + (x : Int))).toNat < (canvas_w * canvas_h).toNat := by
      omega
    simp only [setPix]
    rw [if_neg (by omega : ¬ i = ((img.dst_y + (y : Int)) * canvas_w
      + (img.dst_x + (x : Int))).toNat)]
  }

/-- A clipped row never writes at or past the end of the pixel buffer. -/
theorem blendRow_out {canvas_w canvas_h : Int} {r g b a : Nat}
    {img : AssImage} {i : Nat} (hi : (canvas_w * canvas_h).toNat ≤ i) :
    ∀ (c : Canvas) (y : Nat),
      blendRow canvas_w canvas_h r g b a img c y i = c i := by
  intro c y
  simp only [blendRow]
  split_ifs with h1
  · rfl
  · exact foldl_apply_eq _ i
      (fun c' x => blendCol_out (by omega) (by omega) hi c' x) _ c

/-- Blending one image never writes at or past the end of the pixel buffer. -/
theorem blendImage_out {canvas_w canvas_h : Int} {i : Nat}
    (hi : (canvas_w * canvas_h).toNat ≤ i) :
    ∀ (c : Canvas) (img : AssImage),
      blendImage canvas_w canvas_h c img i = c i := by
  intro c img
  simp only [blendImage]
  exact foldl_apply_eq _ i (fun c' y => blendRow_out hi c' y) _ c

/-- One column step never decreases the stored alpha of any pixel. -/
theorem blendCol_alpha {canvas_w : Int} {r g b a : Nat} {img : AssImage}
    {y : Nat} (i : Nat) :
    ∀ (c : Canvas) (x : Nat),
      c i / 2 ^ 24 % 256 ≤ blendCol canvas_w r g b a img y c x i / 2 ^ 24 % 256 := by
  intro c x
  simp only [blendCol]
  split_ifs with h1 h2 h3 h4 <;> try exact Nat.le_refl _
  all_goals {
    have hba : (img.bitmap ((y : Int) * img.stride + (x : Int))).val ≤ 255 :=
      Nat.le_of_lt_succ (img.bitmap _).isLt
    have hfa255 : (img.bitmap ((y : Int) * img.stride + (x : Int))).val
        * (255 - a) / 255 ≤ 255 := final_alpha_le _ a hba
    have hda : c ((img.dst_y + (y : Int)) * canvas_w
        + (img.dst_x + (x : Int))).toNat / 2 ^ 24 % 256 ≤ 255 := by omega
    have hle := srcOverAlpha_le hfa255 hda
    have hge := le_srcOverAlpha ((img.bitmap ((y : Int) * img.stride
        + (x : Int))).val * (255 - a) / 255) _ hda
    have h1fa : 1 ≤ srcOverAlpha ((img.bitmap ((y : Int) * img.stride
        + (x : Int))).val * (255 - a) / 255)
        (c ((img.dst_y + (y : Int)) * canvas_w
          + (img.dst_x + (x : Int))).toNat / 2 ^ 24 % 256) := by
      unfold srcOverAlpha
      omega
    first
      | omega
      | (simp only [setPix]
         by_cases hidx : i = ((img.dst_y + (y : Int)) * canvas_w
           + (img.dst_x + (x : Int))).toNat
         · rw [if_pos hidx, hidx]
           omega
         · rw [if_neg hidx])
  }

/-- One row step never decreases the stored alpha of any pixel. -/
theorem blendRow_alpha {canvas_w canvas_h : Int} {r g b a : Nat}
    {img : AssImage} (i : Nat) :
    ∀ (c : Canvas) (y : Nat),
      c i / 2 ^ 24 % 256
        ≤ blendRow canvas_w canvas_h r g b a img c y i / 2 ^ 24 % 256 := by
  intro c y
  simp only [blendRow]
  split_ifs with h1
  · exact Nat.le_refl _
  · exact foldl_apply_le _ (fun c' => c' i / 2 ^ 24 % 256)
      (fun c' x => blendCol_alpha i c' x) _ c

/-- Blending one image never decreases the stored alpha of any pixel. -/
theorem blendImage_alpha {canvas_w canvas_h : Int} (i : Nat) :
    ∀ (c : Canvas) (img : AssImage),
      c i / 2 ^ 24 % 256
        ≤ blendImage canvas_w canvas_h c img i / 2 ^ 24 % 256 := by
  intro c img
  simp only [blendImage]
  exact foldl_apply_le _ (fun c' => c' i / 2 ^ 24 % 256)
    (fun c' y => blendRow_alpha i c' y) _ c

/-- The code's comparison-based fold step equals the spec's min/max step. -/
theorem bboxStep_eq_spec (st : Rect) (img : AssImage) :
    bboxStep st img = bboxSpecStep st img := by
  simp only [bboxStep, bboxSpecStep]
  by_cases h : img.w ≤ 0 ∨ img.h ≤ 0
  · rw [if_pos h, if_neg (by omega)]
  · rw [if_neg h, if_pos (by omega : 0 < img.w ∧ 0 < img.h)]
    simp only [Rect.mk.injEq, min_def, max_def]
    refine ⟨?_, ?_, ?_, ?_⟩ <;> split_ifs <;> omega

theorem bbox_fold_eq (l : List AssImage) :
    ∀ st : Rect, l.foldl bboxStep st = l.foldl bboxSpecStep st := by
  induction l with
  | nil => intro st; rfl
  | cons x xs ih =>
      intro st
      rw [List.foldl_cons, List.foldl_cons, bboxStep_eq_spec, ih]

/-- `compute_bounding_box` computes exactly the spec's clamped min/max fold. -/
theorem bbox_eq_spec (imgs : List AssImage) (canvas_w canvas_h : Int) :
    compute_bounding_box imgs canvas_w canvas_h
      = boundingBoxSpec imgs canvas_w canvas_h := by
  simp only [compute_bounding_box, boundingBoxSpec, bbox_fold_eq]
  simp only [Rect.mk.injEq, min_def, max_def]
  refine ⟨?_, ?_, ?_, ?_⟩ <;> split_ifs <;> omega

/-- Degenerate fragments never move the running rectangle. -/
theorem bbox_fold_degenerate (l : List AssImage) (st : Rect)
    (h : ∀ img ∈ l, img.w ≤ 0 ∨ img.h ≤ 0) : l.foldl bboxStep st = st :=
  foldl_fix _ _ _ fun st' img hmem => by
    simp only [bboxStep]
    rw [if_pos (h img hmem)]

theorem bboxStep_left_le (st : Rect) (img : AssImage) :
    (bboxStep st img).left ≤ st.left := by
  simp only [bboxStep]
  split_ifs <;> simp <;> omega

theorem bboxStep_top_le (st : Rect) (img : AssImage) :
    (bboxStep st img).top ≤ st.top := by
  simp only [bboxStep]
  split_ifs <;> simp <;> omega

theorem bboxStep_right_ge (st : Rect) (img : AssImage) :
    st.right ≤ (bboxStep st img).right := by
  simp only [bboxStep]
  split_ifs <;> simp <;> omega

theorem bboxStep_bottom_ge (st : Rect) (img : AssImage) :
    st.bottom ≤ (bboxStep st img).bottom := by
  simp only [bboxStep]
  split_ifs <;> simp <;> omega

theorem bbox_fold_left_le (l : List AssImage) :
    ∀ st : Rect, (l.foldl bboxStep st).left ≤ st.left := by
  induction l with
  | nil => intro st; exact le_refl _
  | cons x xs ih =>
      intro st
      rw [List.foldl_cons]
      exact le_trans (ih (bboxStep st x)) (bboxStep_left_le st x)

theorem bbox_fold_top_le (l : List AssImage) :
    ∀ st : Rect, (l.foldl bboxStep st).top ≤ st.top := by
  induction l with
  | nil => intro st; exact le_refl _
  | cons x xs ih =>
      intro st
      rw [List.foldl_cons]
      exact le_trans (ih (bboxStep st x)) (bboxStep_top_le st x)

theorem bbox_fold_right_ge (l : List AssImage) :
    ∀ st : Rect, st.right ≤ (l.foldl bboxStep st).right := by
  induction l with
  | nil => intro st; exact le_refl _
  | cons x xs ih =>
      intro st
      rw [List.foldl_cons]
      exact le_trans (bboxStep_right_ge st x) (ih (bboxStep st x))

theorem bbox_fold_bottom_ge (l : List AssImage) :
    ∀ st : Rect, st.bottom ≤ (l.foldl bboxStep st).bottom := by
  induction l with
  | nil => intro st; exact le_refl _
  | cons x xs ih =>
      intro st
      rw [List.foldl_cons]
      exact le_trans (bboxStep_bottom_ge st x) (ih (bboxStep st x))

/-- After folding a sequence containing a non-degenerate fragment, the raw
rectangle is properly ordered. -/
theorem bbox_fold_nondeg (l : List AssImage) :
    ∀ st : Rect, (∃ img ∈ l, 0 < img.w ∧ 0 < img.h) →
      (l.foldl bboxStep st).left ≤ (l.foldl bboxStep st).right ∧
      (l.foldl bboxStep st).top ≤ (l.foldl bboxStep st).bottom := by
  induction l with
  | nil =>
      rintro st ⟨img, hmem, _⟩
      cases hmem
  | cons x xs ih =>
      rintro st ⟨img, hmem, hw, hh⟩
      rw [List.foldl_cons]
      rcases List.mem_cons.mp hmem with rfl | hmem'
      · have hst : (bboxStep st img).left ≤ (bboxStep st img).right ∧
            (bboxStep st img).top ≤ (bboxStep st img).bottom := by
          simp only [bboxStep]
          rw [if_neg (by omega)]
          constructor <;> (simp only; split_ifs <;> omega)
        exact ⟨le_trans (bbox_fold_left_le xs _)
                 (le_trans hst.1 (bbox_fold_right_ge xs _)),
               le_trans (bbox_fold_top_le xs _)
                 (le_trans hst.2 (bbox_fold_bottom_ge xs _))⟩
      · exact ih (bboxStep st x) ⟨img, hmem', hw, hh⟩

/- ====================================================================
   Claim theorems
   ==================================================================== -/

/-- **C5**: for byte-range `src_alpha` and `dst_a`, the source-over output
alpha `src_alpha + dst_a * (255 - src_alpha) / 255` (truncating division)
never exceeds 255, so the narrowing `uint8_t` store of `out_a` is lossless
(the `% 256` the cast performs changes nothing). -/
theorem C5_alpha_no_overflow (src_alpha dst_a : Nat)
    (hs : src_alpha ≤ 255) (hd : dst_a ≤ 255) :
    srcOverAlpha src_alpha dst_a ≤ 255 ∧
    srcOverAlpha src_alpha dst_a % 256 = srcOverAlpha src_alpha dst_a := by
  have h := srcOverAlpha_le hs hd
  exact ⟨h, Nat.mod_eq_of_lt (by omega)⟩

theorem C5_witness :
    srcOverAlpha 200 255 ≤ 255 ∧ srcOverAlpha 200 255 % 256 = srcOverAlpha 200 255 :=
  C5_alpha_no_overflow 200 255 (by decide) (by decide)

/-- **C10**: compositing never decreases a pixel's alpha: arithmetically,
`out_a = src_alpha + dst_a * (255 - src_alpha) / 255 ≥ dst_a` for byte-range
inputs with `src_alpha ≥ 1`; and lifted over any fragment sequence, the
stored alpha channel of every canvas pixel is monotonically non-decreasing
under `blend_ass_image`. -/
theorem C10_alpha_monotone :
    (∀ src_alpha dst_a : Nat, 1 ≤ src_alpha → src_alpha ≤ 255 → dst_a ≤ 255 →
      dst_a ≤ srcOverAlpha src_alpha dst_a) ∧
    (∀ (pixels : Canvas) (canvas_w canvas_h : Int) (img_list : List AssImage)
      (i : Nat),
      pixels i / 2 ^ 24 % 256
        ≤ blend_ass_image pixels canvas_w canvas_h img_list i / 2 ^ 24 % 256) := by
  constructor
  · intro src_alpha dst_a h1 h2 h3
    exact le_srcOverAlpha src_alpha dst_a h3
  · intro pixels canvas_w canvas_h img_list i
    simp only [blend_ass_image]
    exact foldl_apply_le _ (fun c => c i / 2 ^ 24 % 256)
      (fun c img => blendImage_alpha i c img) _ pixels

theorem C10_witness :
    (200 : Nat) ≤ srcOverAlpha 7 200 ∧
    zeroCanvas 0 / 2 ^ 24 % 256
      ≤ blend_ass_image zeroCanvas 1 1 [imgRed] 0 / 2 ^ 24 % 256 :=
  ⟨C10_alpha_monotone.1 7 200 (by decide) (by decide) (by decide),
   C10_alpha_monotone.2 zeroCanvas 1 1 [imgRed] 0⟩

/-- **C4**: the compositor only writes canvas pixels at linear indices inside
the `canvas_w * canvas_h` buffer, i.e. at coordinates inside
`[0, canvas_w) × [0, canvas_h)`: at every index at or past the end of the
buffer the blended canvas agrees with the input canvas, for every fragment
sequence, including fragments with negative or oversized placements (the
embedding is total, so out-of-bounds geometry is never an error). -/
theorem C4_writes_in_bounds (pixels : Canvas) (canvas_w canvas_h : Int)
    (img_list : List AssImage) (i : Nat)
    (hi : (canvas_w * canvas_h).toNat ≤ i) :
    blend_ass_image pixels canvas_w canvas_h img_list i = pixels i := by
  simp only [blend_ass_image]
  exact foldl_apply_eq _ i (fun c img => blendImage_out hi c img) _ pixels

theorem C4_witness :
    blend_ass_image stripedCanvas 2 2
      [{ color := 255 * 2 ^ 24, w := 9, h := 9, stride := 9,
         dst_x := -3, dst_y := -3, bitmap := fun _ => 255 }] 4
      = stripedCanvas 4 :=
  C4_writes_in_bounds stripedCanvas 2 2 _ 4 (by decide)

/-- **C2**: `compute_bounding_box` computes exactly the spec's fold — start
from `(canvas_w, canvas_h, 0, 0)`, fold the raw placed extent of every
fragment with positive width and height via component-wise min/max without
per-fragment clipping, then clamp `left`/`top` to `≥ 0` and `right`/`bottom`
to the canvas dimensions — and on an empty or all-degenerate sequence (with
non-negative canvas dimensions) it returns exactly
`(canvas_w, canvas_h, 0, 0)`. -/
theorem C2_bbox_refines_spec (img_list : List AssImage)
    (canvas_w canvas_h : Int) :
    compute_bounding_box img_list canvas_w canvas_h
      = boundingBoxSpec img_list canvas_w canvas_h ∧
    (0 ≤ canvas_w → 0 ≤ canvas_h →
      (∀ img ∈ img_list, img.w ≤ 0 ∨ img.h ≤ 0) →
      compute_bounding_box img_list canvas_w canvas_h
        = { left := canvas_w, top := canvas_h, right := 0, bottom := 0 }) := by
  constructor
  · exact bbox_eq_spec img_list canvas_w canvas_h
  · intro hw hh hdeg
    simp only [compute_bounding_box]
    rw [bbox_fold_degenerate img_list _ hdeg]
    simp only [Rect.mk.injEq]
    refine ⟨?_, ?_, ?_, ?_⟩ <;> split_ifs <;> omega

theorem C2_witness :
    compute_bounding_box [zeroFrag] 2 3 = boundingBoxSpec [zeroFrag] 2 3 ∧
    compute_bounding_box [] 2 3 = { left := 2, top := 3, right := 0, bottom := 0 } :=
  ⟨(C2_bbox_refines_spec [zeroFrag] 2 3).1,
   (C2_bbox_refines_spec [] 2 3).2 (by decide) (by decide)
     (fun img h => absurd h (List.not_mem_nil img))⟩

/-- **C6 (counterexample)**: for the empty fragment sequence on a 1×1 canvas
the rectangle is `(1, 1, 0, 0)`, which violates the claimed chain
`0 ≤ left ≤ right ≤ canvas_w`. -/
theorem C6_counterexample :
    ¬ (0 ≤ (compute_bounding_box [] 1 1).left ∧
       (compute_bounding_box [] 1 1).left ≤ (compute_bounding_box [] 1 1).right ∧
       (compute_bounding_box [] 1 1).right ≤ 1) := by
  decide

/-- **C6 (amended)**: for non-negative canvas dimensions every component of
the rectangle lies within the canvas range (`0 ≤ left, right ≤ canvas_w`,
`0 ≤ top, bottom ≤ canvas_h`), and the ordering `left ≤ right ∧ top ≤ bottom`
additionally holds whenever some fragment is non-degenerate; for an
all-degenerate sequence the rectangle is the canonical empty one, with
`right ≤ left`. -/
theorem C6_bbox_range (img_list : List AssImage) (canvas_w canvas_h : Int)
    (hw : 0 ≤ canvas_w) (hh : 0 ≤ canvas_h) :
    (0 ≤ (compute_bounding_box img_list canvas_w canvas_h).left ∧
     (compute_bounding_box img_list canvas_w canvas_h).left ≤ canvas_w ∧
     0 ≤ (compute_bounding_box img_list canvas_w canvas_h).right ∧
     (compute_bounding_box img_list canvas_w canvas_h).right ≤ canvas_w ∧
     0 ≤ (compute_bounding_box img_list canvas_w canvas_h).top ∧
     (compute_bounding_box img_list canvas_w canvas_h).top ≤ canvas_h ∧
     0 ≤ (compute_bounding_box img_list canvas_w canvas_h).bottom ∧
     (compute_bounding_box img_list canvas_w canvas_h).bottom ≤ canvas_h) ∧
    ((∃ img ∈ img_list, 0 < img.w ∧ 0 < img.h) →
      (compute_bounding_box img_list canvas_w canvas_h).left
        ≤ (compute_bounding_box img_list canvas_w canvas_h).right ∧
      (compute_bounding_box img_list canvas_w canvas_h).top
        ≤ (compute_bounding_box img_list canvas_w canvas_h).bottom) := by
  have hL : (img_list.foldl bboxStep
      { left := canvas_w, top := canvas_h, right := 0, bottom := 0 }).left
        ≤ canvas_w := bbox_fold_left_le img_list _
  have hT : (img_list.foldl bboxStep
      { left := canvas_w, top := canvas_h, right := 0, bottom := 0 }).top
        ≤ canvas_h := bbox_fold_top_le img_list _
  have hR : (0 : Int) ≤ (img_list.foldl bboxStep
      { left := canvas_w, top := canvas_h, right := 0, bottom := 0 }).right :=
    bbox_fold_right_ge img_list _
  have hB : (0 : Int) ≤ (img_list.foldl bboxStep
      { left := canvas_w, top := canvas_h, right := 0, bottom := 0 }).bottom :=
    bbox_fold_bottom_ge img_list _
  constructor
  · simp only [compute_bounding_box]
    refine ⟨?_, ?_, ?_, ?_, ?_, ?_, ?_, ?_⟩ <;> split_ifs <;> omega
  · intro hex
    have hord := bbox_fold_nondeg img_list
      { left := canvas_w, top := canvas_h, right := 0, bottom := 0 } hex
    simp only [compute_bounding_box]
    constructor <;> split_ifs <;> omega

theorem C6_witness :
    (0 ≤ (compute_bounding_box [imgRed] 2 3).left ∧
     (compute_bounding_box [imgRed] 2 3).left ≤ 2 ∧
     0 ≤ (compute_bounding_box [imgRed] 2 3).right ∧
     (compute_bounding_box [imgRed] 2 3).right ≤ 2 ∧
     0 ≤ (compute_bounding_box [imgRed] 2 3).top ∧
     (compute_bounding_box [imgRed] 2 3).top ≤ 3 ∧
     0 ≤ (compute_bounding_box [imgRed] 2 3).bottom ∧
     (compute_bounding_box [imgRed] 2 3).bottom ≤ 3) ∧
    ((∃ img ∈ [imgRed], 0 < img.w ∧ 0 < img.h) →
      (compute_bounding_box [imgRed] 2 3).left
        ≤ (compute_bounding_box [imgRed] 2 3).right ∧
      (compute_bounding_box [imgRed] 2 3).top
        ≤ (compute_bounding_box [imgRed] 2 3).bottom) :=
  C6_bbox_range [imgRed] 2 3 (by decide) (by decide)

/-- **C7**: the empty fragment sequence yields exactly the canonical empty
rectangle `(canvas_w, canvas_h, 0, 0)` (for non-negative canvas dimensions),
and compositing the empty sequence leaves every pixel of the zero-initialized
canvas equal to zero. -/
theorem C7_empty_input (canvas_w canvas_h : Int)
    (hw : 0 ≤ canvas_w) (hh : 0 ≤ canvas_h) :
    compute_bounding_box [] canvas_w canvas_h
      = { left := canvas_w, top := canvas_h, right := 0, bottom := 0 } ∧
    ∀ i : Nat, blend_ass_image zeroCanvas canvas_w canvas_h [] i = 0 := by
  constructor
  · simp only [compute_bounding_box, List.foldl_nil, Rect.mk.injEq]
    refine ⟨?_, ?_, ?_, ?_⟩ <;> split_ifs <;> omega
  · intro i
    rfl

theorem C7_witness :
    compute_bounding_box [] 4 3 = { left := 4, top := 3, right := 0, bottom := 0 } ∧
    blend_ass_image zeroCanvas 4 3 [] 5 = 0 :=
  ⟨(C7_empty_input 4 3 (by decide) (by decide)).1,
   (C7_empty_input 4 3 (by decide) (by decide)).2 5⟩

/-- **C8**: source-over stacking is order-sensitive: the two overlapping
semi-transparent fragments `imgRed` and `imgBlue`, composited onto a
zero-initialized 1×1 canvas, give different pixels in the two sequence
orders (`0xBE430085` versus `0xBE850043`). -/
theorem C8_order_sensitive :
    blend_ass_image zeroCanvas 1 1 [imgRed, imgBlue] 0
      ≠ blend_ass_image zeroCanvas 1 1 [imgBlue, imgRed] 0 := by
  decide

/-- **C3 (counterexample)**: removing the all-zero-bitmap fragment
`zeroFrag` (1×1, positive dimensions) from a sequence leaves the composited
canvas identical but CHANGES the bounding box: `compute_bounding_box` keeps
any fragment with positive width and height regardless of bitmap content, so
the claim's conjunction fails. -/
theorem C3_counterexample :
    ¬ (blend_ass_image zeroCanvas 2 2 [zeroFrag]
         = blend_ass_image zeroCanvas 2 2 [] ∧
       compute_bounding_box [zeroFrag] 2 2 = compute_bounding_box [] 2 2) := by
  intro h
  exact absurd h.2 (by decide)

/-- **C3 (amended)**: a fragment whose bitmap bytes are all zero contributes
no change to the composited canvas (removing it from any position of the
sequence leaves the blended canvas identical); it is however NOT excluded
from the bounding box: `compute_bounding_box` depends only on a fragment's
width, height and placement, never on its bitmap content. -/
theorem C3_zero_coverage (pixels : Canvas) (canvas_w canvas_h : Int)
    (pre post : List AssImage) (f : AssImage)
    (hzero : ∀ off, f.bitmap off = 0) :
    blend_ass_image pixels canvas_w canvas_h (pre ++ f :: post)
      = blend_ass_image pixels canvas_w canvas_h (pre ++ post) ∧
    ∀ g : AssImage, g.w = f.w → g.h = f.h → g.dst_x = f.dst_x →
      g.dst_y = f.dst_y →
      compute_bounding_box (pre ++ f :: post) canvas_w canvas_h
        = compute_bounding_box (pre ++ g :: post) canvas_w canvas_h := by
  constructor
  · simp only [blend_ass_image, List.foldl_append, List.foldl_cons]
    rw [blendImage_zero hzero]
  · intro g hgw hgh hgx hgy
    have hstep : ∀ st : Rect, bboxStep st f = bboxStep st g := by
      intro st
      simp only [bboxStep, hgw, hgh, hgx, hgy]
    simp only [compute_bounding_box, List.foldl_append, List.foldl_cons]
    rw [hstep]

theorem C3_witness :
    blend_ass_image zeroCanvas 2 2 ([] ++ zeroFrag :: [imgRed])
      = blend_ass_image zeroCanvas 2 2 ([] ++ [imgRed]) ∧
    compute_bounding_box ([] ++ zeroFrag :: [imgRed]) 2 2
      = compute_bounding_box ([] ++ imgRed :: [imgRed]) 2 2 :=
  ⟨(C3_zero_coverage zeroCanvas 2 2 [] [imgRed] zeroFrag fun _ => rfl).1,
   (C3_zero_coverage zeroCanvas 2 2 [] [imgRed] zeroFrag fun _ => rfl).2
     imgRed rfl rfl rfl rfl⟩

/-- **C1 (counterexample)**: after compositing `cexImgA` the destination
pixel holds alpha 1 and red 255; the update by `cexImgB` then has effective
source alpha `255 * (255 - 254) / 255 = 1`, the claim's red-channel formula
gives `(100 * 1 + 255 * 1 * 254 / 255) / 1 = 354`, but the pixel actually
written back stores red `98 = 354 % 256` — the claimed equality (without the
`uint8_t` wrap-around) fails. -/
theorem C1_counterexample :
    blend_ass_image zeroCanvas 1 1 [cexImgA] 0 / 2 ^ 24 % 256 = 1 ∧
    blend_ass_image zeroCanvas 1 1 [cexImgA] 0 / 2 ^ 16 % 256 = 255 ∧
    (255 : Nat) * (255 - 254) / 255 = 1 ∧
    (100 * 1 + 255 * 1 * (255 - 1) / 255) / (1 + 1 * (255 - 1) / 255) = 354 ∧
    blend_ass_image zeroCanvas 1 1 [cexImgA, cexImgB] 0 / 2 ^ 16 % 256 = 98 ∧
    (98 : Nat) ≠ 354 := by
  decide

/-- **C1 (amended)**: for every pixel the compositor updates (in-bounds
column, nonzero coverage byte, nonzero effective source alpha), the pixel
written back is the packed `(out_a, out_r, out_g, out_b)` with
`out_a = src_alpha + dst_a * inv / 255` and each color channel equal to
`(src_c * src_alpha + dst_c * dst_a * inv / 255) / out_a` REDUCED MODULO 256
(the `uint8_t` narrowing), and `(0,0,0)` when `out_a = 0` — exactly
`specPixelUpdate` applied to the decoded tint, the coverage byte and the
current destination pixel. -/
theorem C1_pixel_formula (canvas_w : Int) (r g b a : Nat) (img : AssImage)
    (y x : Nat) (pix : Canvas)
    (hx0 : 0 ≤ img.dst_x + (x : Int)) (hxw : img.dst_x + (x : Int) < canvas_w)
    (hcov : (img.bitmap ((y : Int) * img.stride + (x : Int))).val ≠ 0)
    (hsa : (img.bitmap ((y : Int) * img.stride + (x : Int))).val
      * (255 - a) / 255 ≠ 0) :
    blendCol canvas_w r g b a img y pix x
      = setPix pix
          ((img.dst_y + (y : Int)) * canvas_w + (img.dst_x + (x : Int))).toNat
          (specPixelUpdate r g b
            (img.bitmap ((y : Int) * img.stride + (x : Int))).val a
            (pix ((img.dst_y + (y : Int)) * canvas_w
              + (img.dst_x + (x : Int))).toNat)) := by
  have hba : (img.bitmap ((y : Int) * img.stride + (x : Int))).val ≤ 255 :=
    Nat.le_of_lt_succ (img.bitmap _).isLt
  have hfa : (img.bitmap ((y : Int) * img.stride + (x : Int))).val
      * (255 - a) / 255 ≤ 255 := final_alpha_le _ a hba
  have hda : pix ((img.dst_y + (y : Int)) * canvas_w
      + (img.dst_x + (x : Int))).toNat / 2 ^ 24 % 256 ≤ 255 := by omega
  have hso := srcOverAlpha_le hfa hda
  have hmod : srcOverAlpha
      ((img.bitmap ((y : Int) * img.stride + (x : Int))).val * (255 - a) / 255)
      (pix ((img.dst_y + (y : Int)) * canvas_w
        + (img.dst_x + (x : Int))).toNat / 2 ^ 24 % 256) % 256
      = srcOverAlpha
      ((img.bitmap ((y : Int) * img.stride + (x : Int))).val * (255 - a) / 255)
      (pix ((img.dst_y + (y : Int)) * canvas_w
        + (img.dst_x + (x : Int))).toNat / 2 ^ 24 % 256) :=
    Nat.mod_eq_of_lt (by omega)
  simp only [blendCol, specPixelUpdate]
  rw [if_neg (by omega : ¬(img.dst_x + (x : Int) < 0
    ∨ canvas_w ≤ img.dst_x + (x : Int))), if_neg hcov, if_neg hsa, hmod]
  simp only [srcOverAlpha]

theorem C1_witness :
    blendCol 1 200 0 0 128 imgRed 0 zeroCanvas 0
      = setPix zeroCanvas
          ((imgRed.dst_y + ((0 : Nat) : Int)) * 1
            + (imgRed.dst_x + ((0 : Nat) : Int))).toNat
          (specPixelUpdate 200 0 0
            (imgRed.bitmap (((0 : Nat) : Int) * imgRed.stride
              + ((0 : Nat) : Int))).val 128
            (zeroCanvas ((imgRed.dst_y + ((0 : Nat) : Int)) * 1
              + (imgRed.dst_x + ((0 : Nat) : Int))).toNat)) :=
  C1_pixel_formula 1 200 0 0 128 imgRed 0 0 zeroCanvas
    (by decide) (by decide) (by decide) (by decide)

/-- **C9**: for every canvas and bounding box with `0 ≤ left`, `0 ≤ top` and
`right ≤ canvas_w`, extracting the `(right-left) × (bottom-top)` region and
re-placing it at `(left, top)` on a freshly zeroed canvas of the same
dimensions reproduces the original canvas at every pixel `(x, y)` inside the
box, and leaves every in-canvas pixel outside the box zero.  Extraction is a
pure function of the source canvas, so it cannot mutate it. -/
theorem C9_roundtrip_crop (full : Canvas)
    (canvas_w left top right bottom : Int) (x y : Int)
    (hl : 0 ≤ left) (ht : 0 ≤ top) (hrw : right ≤ canvas_w) :
    (left ≤ x → x < right → top ≤ y → y < bottom →
      placeRegion (extractRegion full canvas_w left top right bottom)
          canvas_w left top right bottom ((y * canvas_w + x).toNat)
        = full ((y * canvas_w + x).toNat)) ∧
    (0 ≤ x → x < canvas_w → 0 ≤ y →
      ¬(left ≤ x ∧ x < right ∧ top ≤ y ∧ y < bottom) →
      placeRegion (extractRegion full canvas_w left top right bottom)
          canvas_w left top right bottom ((y * canvas_w + x).toNat) = 0) := by
  constructor
  · intro hx1 hx2 hy1 hy2
    have hxW : x.toNat < canvas_w.toNat := by omega
    have hiv : ((y.toNat * canvas_w.toNat + x.toNat : Nat) : Int)
        = y * canvas_w + x := by
      push_cast
      rw [Int.toNat_of_nonneg (by omega : (0 : Int) ≤ y),
        Int.toNat_of_nonneg (by omega : (0 : Int) ≤ x),
        Int.toNat_of_nonneg (by omega : (0 : Int) ≤ canvas_w)]
    have hi : (y * canvas_w + x).toNat = y.toNat * canvas_w.toNat + x.toNat := by
      omega
    have hdiv : (y.toNat * canvas_w.toNat + x.toNat) / canvas_w.toNat
        = y.toNat := by
      rw [show y.toNat * canvas_w.toNat + x.toNat
          = x.toNat + canvas_w.toNat * y.toNat from by ring,
        Nat.add_mul_div_left _ _ (by omega : 0 < canvas_w.toNat),
        Nat.div_eq_of_lt hxW]
      omega
    have hmod : (y.toNat * canvas_w.toNat + x.toNat) % canvas_w.toNat
        = x.toNat := by
      rw [show y.toNat * canvas_w.toNat + x.toNat
          = x.toNat + canvas_w.toNat * y.toNat from by ring,
        Nat.add_mul_mod_self_left, Nat.mod_eq_of_lt hxW]
    simp only [placeRegion]
    rw [hi, hdiv, hmod,
      if_pos (⟨by omega, by omega, by omega, by omega⟩ :
        left ≤ ((x.toNat : Nat) : Int) ∧ ((x.toNat : Nat) : Int) < right ∧
        top ≤ ((y.toNat : Nat) : Int) ∧ ((y.toNat : Nat) : Int) < bottom)]
    have hXL : (x - left).toNat < (right - left).toNat := by omega
    have hjv : (((y - top).toNat * (right - left).toNat
        + (x - left).toNat : Nat) : Int)
        = ((y.toNat : Int) - top) * (right - left) + ((x.toNat : Int) - left) := by
      push_cast
      rw [Int.toNat_of_nonneg (by omega : (0 : Int) ≤ y - top),
        Int.toNat_of_nonneg (by omega : (0 : Int) ≤ x - left),
        Int.toNat_of_nonneg (by omega : (0 : Int) ≤ right - left),
        Int.toNat_of_nonneg (by omega : (0 : Int) ≤ y),
        Int.toNat_of_nonneg (by omega : (0 : Int) ≤ x)]
    have hj : (((y.toNat : Int) - top) * (right - left)
        + ((x.toNat : Int) - left)).toNat
        = (y - top).toNat * (right - left).toNat + (x - left).toNat := by
      omega
    have hdiv2 : ((y - top).toNat * (right - left).toNat + (x - left).toNat)
        / (right - left).toNat = (y - top).toNat := by
      rw [show (y - top).toNat * (right - left).toNat + (x - left).toNat
          = (x - left).toNat + (right - left).toNat * (y - top).toNat
          from by ring,
        Nat.add_mul_div_left _ _ (by omega : 0 < (right - left).toNat),
        Nat.div_eq_of_lt hXL]
      omega
    have hmod2 : ((y - top).toNat * (right - left).toNat + (x - left).toNat)
        % (right - left).toNat = (x - left).toNat := by
      rw [show (y - top).toNat * (right - left).toNat + (x - left).toNat
          = (x - left).toNat + (right - left).toNat * (y - top).toNat
          from by ring,
        Nat.add_mul_mod_self_left, Nat.mod_eq_of_lt hXL]
    simp only [extractRegion]
    rw [hj, hdiv2, hmod2, if_pos (by omega : (y - top).toNat
      < (bottom - top).toNat)]
    have e1 : top + (((y - top).toNat : Nat) : Int) = y := by omega
    rw [e1]
    exact congrArg full (by omega)
  · intro hx0 hxw hy0 hout
    have hxW : x.toNat < canvas_w.toNat := by omega
    have hiv : ((y.toNat * canvas_w.toNat + x.toNat : Nat) : Int)
        = y * canvas_w + x := by
      push_cast
      rw [Int.toNat_of_nonneg hy0, Int.toNat_of_nonneg hx0,
        Int.toNat_of_nonneg (by omega : (0 : Int) ≤ canvas_w)]
    have hi : (y * canvas_w + x).toNat = y.toNat * canvas_w.toNat + x.toNat := by
      omega
    have hdiv : (y.toNat * canvas_w.toNat + x.toNat) / canvas_w.toNat
        = y.toNat := by
      rw [show y.toNat * canvas_w.toNat + x.toNat
          = x.toNat + canvas_w.toNat * y.toNat from by ring,
        Nat.add_mul_div_left _ _ (by omega : 0 < canvas_w.toNat),
        Nat.div_eq_of_lt hxW]
      omega
    have hmod : (y.toNat * canvas_w.toNat + x.toNat) % canvas_w.toNat
        = x.toNat := by
      rw [show y.toNat * canvas_w.toNat + x.toNat
          = x.toNat + canvas_w.toNat * y.toNat from by ring,
        Nat.add_mul_mod_self_left, Nat.mod_eq_of_lt hxW]
    simp only [placeRegion]
    rw [hi, hdiv, hmod, if_neg (by omega : ¬(left ≤ ((x.toNat : Nat) : Int)
      ∧ ((x.toNat : Nat) : Int) < right ∧ top ≤ ((y.toNat : Nat) : Int)
      ∧ ((y.toNat : Nat) : Int) < bottom))]

theorem C9_witness :
    placeRegion (extractRegion stripedCanvas 2 0 0 1 1) 2 0 0 1 1
        (((0 : Int) * 2 + 0).toNat)
      = stripedCanvas (((0 : Int) * 2 + 0).toNat) ∧
    placeRegion (extractRegion stripedCanvas 2 0 0 1 1) 2 0 0 1 1
        (((0 : Int) * 2 + 1).toNat) = 0 :=
  ⟨(C9_roundtrip_crop stripedCanvas 2 0 0 1 1 0 0
      (by decide) (by decide) (by decide)).1
      (by decide) (by decide) (by decide) (by decide),
   (C9_roundtrip_crop stripedCanvas 2 0 0 1 1 1 0
      (by decide) (by decide) (by decide)).2
      (by decide) (by decide) (by decide) (by decide)⟩
